import Mathlib

/-!
# Verification of the AI-Judge GDPR retrieval pipeline

Shallow embedding of the corpus-building and retrieval code of the
AI-Judge repository:

* `src/data/build_gdpr_corpus.py` — `parse_articles`, `iter_paragraph_chunks`
* `src/gdpr_knowledge_base.py` — `GDPRKnowledgeBase.__init__`, `retrieve`
* `src/gdpr_judge.py` — the retrieval call inside `analyze_gdpr_compliance`

Python strings are modelled as Lean `String`s; the regular expressions of
the corpus builder are hand-compiled to character-list matchers over the
ASCII fragment they are used on.  Floating-point cosine-similarity scores
are modelled as rational numbers (the claims under study concern only
comparisons and ordering of scores, never rounding).  Python exceptions
are modelled with `Except String`.
-/

namespace AIJudge

/-! ## Python string primitives (ASCII model) -/

/-- The characters Python's `str.strip` / `\s` treat as whitespace
(ASCII fragment). -/
def isPySpace (c : Char) : Bool :=
  c = ' ' || c = '\t' || c = '\n' || c = '\r' || c = '\x0b' || c = '\x0c'

/-- `str.strip()` on a character list. -/
def pyStripList (cs : List Char) : List Char :=
  ((cs.dropWhile isPySpace).reverse.dropWhile isPySpace).reverse

/-- Python `s.strip()`. -/
def pyStrip (s : String) : String := ⟨pyStripList s.data⟩

/-- Helper for `str.split()` (no argument): split on whitespace runs,
dropping empty words.  `acc` holds the current word reversed. -/
def pySplitGo : List Char → List Char → List String
  | [], acc => if acc.isEmpty then [] else [⟨acc.reverse⟩]
  | c :: cs, acc =>
    if isPySpace c then
      if acc.isEmpty then pySplitGo cs [] else ⟨acc.reverse⟩ :: pySplitGo cs []
    else pySplitGo cs (c :: acc)

/-- Python `s.split()` (whitespace split, empties discarded). -/
def pySplit (s : String) : List String := pySplitGo s.data []

/-- Python `sep.join(items)`. -/
def pyJoin (sep : String) : List String → String
  | [] => ""
  | [s] => s
  | s :: rest => s ++ sep ++ pyJoin sep rest

/-- `_normalize` from `build_gdpr_corpus.py`:
`" ".join(line.strip().split())`. -/
def normalize (s : String) : String := pyJoin " " (pySplit (pyStrip s))

/-- Python `s.upper()` (ASCII). -/
def pyUpper (s : String) : String := ⟨s.data.map Char.toUpper⟩

/-- Python `s.lower()` (ASCII). -/
def pyLower (s : String) : String := ⟨s.data.map Char.toLower⟩

/-- Python `s.replace(" ", "_")`. -/
def spaceToUnderscore (s : String) : String :=
  ⟨s.data.map fun c => if c = ' ' then '_' else c⟩

/-- Python `s.replace("\r\n", "\n")` on a character list. -/
def replaceCRLF : List Char → List Char
  | '\r' :: '\n' :: rest => '\n' :: replaceCRLF rest
  | c :: rest => c :: replaceCRLF rest
  | [] => []

/-- Python `s.split("\n")` on a character list (`"".split("\n") = [""]`). -/
def splitNl : List Char → List (List Char)
  | [] => [[]]
  | c :: cs =>
    if c = '\n' then [] :: splitNl cs
    else
      match splitNl cs with
      | p :: ps => (c :: p) :: ps
      | [] => [[c]]

/-- `raw_text.replace("\r\n", "\n").split("\n")` as a list of line strings. -/
def toLines (raw : String) : List String :=
  (splitNl (replaceCRLF raw.data)).map fun cs => ⟨cs⟩

/-! ## Decimal rendering of Python's `f"{idx}"` -/

/-- One decimal digit character (`0 ≤ d ≤ 9` in all uses). -/
def decDigit (d : Nat) : Char := Char.ofNat (48 + d)

/-- Fuel-driven decimal digit expansion (most significant first). -/
def natDecGo : Nat → Nat → List Char
  | 0, _ => []
  | fuel + 1, n =>
    if n < 10 then [decDigit n]
    else natDecGo fuel (n / 10) ++ [decDigit (n % 10)]

/-- Python's decimal rendering `f"{n}"` of a natural number. -/
def natToDec (n : Nat) : String := ⟨natDecGo (n + 1) n⟩

/-- Decimal value of a digit list (left fold, used to invert `natToDec`). -/
def decValL (cs : List Char) : Nat :=
  cs.foldl (fun a c => 10 * a + (c.toNat - 48)) 0

/-! ## Heading regular expressions

`ARTICLE_HEADER_PATTERN = ^Article\s+\d+[A-Za-z]?\s*$` (IGNORECASE),
`CHAPTER_PATTERN = ^Chapter\s+[IVXLC]+\s*$` (IGNORECASE),
`SECTION_PATTERN = ^Section\s+[IVXLC\d]+\s*$` (IGNORECASE).
Each character class is disjoint from its successor, so greedy
left-to-right matching without backtracking is exact. -/

/-- Match a literal word case-insensitively at the front, returning the
rest of the input.  The pattern `ls` is given in lowercase. -/
def matchLitCI : List Char → List Char → Option (List Char)
  | [], cs => some cs
  | _ :: _, [] => none
  | l :: ls, c :: cs => if c.toLower = l then matchLitCI ls cs else none

/-- Roman-numeral characters of the chapter class, case-insensitively. -/
def isRomanCI (c : Char) : Bool :=
  let u := c.toUpper
  u = 'I' || u = 'V' || u = 'X' || u = 'L' || u = 'C'

/-- Characters of the section class `[IVXLC\d]`, case-insensitively. -/
def isRomanOrDigitCI (c : Char) : Bool := isRomanCI c || c.isDigit

/-- ASCII letter test for `[A-Za-z]`. -/
def isAsciiLetter (c : Char) : Bool :=
  ('A' ≤ c && c ≤ 'Z') || ('a' ≤ c && c ≤ 'z')

/-- Shared shape of the chapter/section patterns:
`^<word>\s+<cls>+\s*$` (IGNORECASE). -/
def matchWordClass (word : List Char) (cls : Char → Bool) (s : String) : Bool :=
  match matchLitCI word s.data with
  | none => false
  | some rest =>
    let r1 := rest.dropWhile isPySpace
    if r1.length = rest.length then false
    else
      let r2 := r1.dropWhile cls
      if r2.length = r1.length then false
      else (r2.dropWhile isPySpace).isEmpty

/-- `CHAPTER_PATTERN.match(line)` as a Boolean. -/
def matchChapterHeader (s : String) : Bool :=
  matchWordClass "chapter".data isRomanCI s

/-- `SECTION_PATTERN.match(line)` as a Boolean. -/
def matchSectionHeader (s : String) : Bool :=
  matchWordClass "section".data isRomanOrDigitCI s

/-- `ARTICLE_HEADER_PATTERN.match(line)` as a Boolean:
`^Article\s+\d+[A-Za-z]?\s*$`, IGNORECASE. -/
def matchArticleHeader (s : String) : Bool :=
  match matchLitCI "article".data s.data with
  | none => false
  | some rest =>
    let r1 := rest.dropWhile isPySpace
    if r1.length = rest.length then false
    else
      let r2 := r1.dropWhile Char.isDigit
      if r2.length = r1.length then false
      else
        let r3 := match r2 with
          | c :: cs => if isAsciiLetter c then cs else r2
          | [] => []
        (r3.dropWhile isPySpace).isEmpty

/-- `_is_heading` from `build_gdpr_corpus.py` (strips, then tries the
three patterns). -/
def isHeading (s : String) : Bool :=
  let t := pyStrip s
  matchArticleHeader t || matchChapterHeader t || matchSectionHeader t

/-! ## Data model -/

/-- The `Article` dataclass of `build_gdpr_corpus.py`. -/
structure Article where
  article : String
  title : String
  chapter : Option String
  section_ : Option String
  text : String
deriving DecidableEq, Repr

/-- The `Chunk` dataclass of `build_gdpr_corpus.py`. -/
structure Chunk where
  article : String
  title : String
  chapter : Option String
  section_ : Option String
  chunk_id : String
  text : String
deriving DecidableEq, Repr

/-! ## `parse_articles` -/

/-- Blank-line test `not lines[j].strip()`. -/
def isBlankLine (l : String) : Bool := pyStrip l = ""

/-- Skip blank lines: the `while j < len(lines) and not lines[j].strip()`
lookahead loops. -/
def dropBlanks (ls : List String) : List String := ls.dropWhile isBlankLine

/-- The article body loop of `parse_articles`: accumulate normalized
non-blank lines until a heading or end of input; return the collected
body lines and the remaining lines (starting at the heading, if any). -/
def scanBody : List String → List String × List String
  | [] => ([], [])
  | l :: rest =>
    let peek := pyStrip l
    if peek = "" then scanBody rest
    else if isHeading peek then ([], l :: rest)
    else
      let (b, r) := scanBody rest
      (normalize l :: b, r)

/-- The chapter label built by the chapter branch:
`_normalize(line).upper()` plus an optional `" - <title>"` suffix. -/
def headingLabel (s : String) (title : Option String) : String :=
  pyUpper (normalize s) ++ (match title with
    | some t => " - " ++ normalize t
    | none => "")

/-- The article label `"Article " + line.split()[1].upper()`. -/
def articleLabel (s : String) : String :=
  "Article " ++ pyUpper ((pySplit s).getD 1 "")

/-- The main `while` loop of `parse_articles`, as a fuel-driven structural
recursion (every iteration consumes at least one line, so
`lines.length + 1` fuel always suffices; running out of fuel cannot
happen from `parse_articles` below). -/
def parseLoop : Nat → List String → Option String → Option String → List Article
  | 0, _, _, _ => []
  | _ + 1, [], _, _ => []
  | fuel + 1, l :: rest, ch, sec =>
    let s := pyStrip l
    if s = "" then parseLoop fuel rest ch sec
    else if matchChapterHeader s then
      match dropBlanks rest with
      | [] => parseLoop fuel rest (some (headingLabel s none)) none
      | t :: rest' =>
        let ts := pyStrip t
        if isHeading ts then parseLoop fuel rest (some (headingLabel s none)) none
        else parseLoop fuel rest' (some (headingLabel s (some ts))) none
    else if matchSectionHeader s then
      match dropBlanks rest with
      | [] => parseLoop fuel rest ch (some (headingLabel s none))
      | t :: rest' =>
        let ts := pyStrip t
        if isHeading ts then parseLoop fuel rest ch (some (headingLabel s none))
        else parseLoop fuel rest' ch (some (headingLabel s (some ts)))
    else if matchArticleHeader s then
      match dropBlanks rest with
      | [] =>
        ⟨articleLabel s, "", ch, sec, ""⟩ :: parseLoop fuel [] ch sec
      | t :: rest' =>
        let ts := pyStrip t
        if isHeading ts then
          let (body, rem) := scanBody (t :: rest')
          ⟨articleLabel s, "", ch, sec, pyJoin "\n" body⟩ :: parseLoop fuel rem ch sec
        else
          let (body, rem) := scanBody rest'
          ⟨articleLabel s, normalize ts, ch, sec, pyJoin "\n" body⟩ :: parseLoop fuel rem ch sec
    else parseLoop fuel rest ch sec

/-- `parse_articles` restricted to an explicit line list. -/
def parseArticlesLines (lines : List String) : List Article :=
  parseLoop (lines.length + 1) lines none none

/-- `parse_articles(raw_text)` from `build_gdpr_corpus.py`. -/
def parse_articles (raw : String) : List Article :=
  parseArticlesLines (toLines raw)

/-! ## `iter_paragraph_chunks` -/

/-- After the first digit of `\d+\.`: accept further digits, then a
period.  (No digit equals `'.'`, so greedy matching is exact.) -/
def numDotTail : List Char → Bool
  | [] => false
  | c :: cs => if c = '.' then true else c.isDigit && numDotTail cs

/-- The lookahead `(?=\d+\.)`: does the character list start with one or
more ASCII digits immediately followed by a period? -/
def startsNumDot : List Char → Bool
  | [] => false
  | c :: cs => c.isDigit && numDotTail cs

/-- `re.split(r"\n(?=\d+\.)", text)` on a character list: cut at every
newline that is immediately followed by `\d+\.`; the newline is the
delimiter and belongs to neither side. -/
def splitParasGo : List Char → List (List Char)
  | [] => [[]]
  | c :: cs =>
    if c = '\n' && startsNumDot cs then [] :: splitParasGo cs
    else
      match splitParasGo cs with
      | p :: ps => (c :: p) :: ps
      | [] => [[c]]

/-- `re.split(r"\n(?=\d+\.)", article.text)` as a list of strings. -/
def splitParas (text : String) : List String :=
  (splitParasGo text.data).map fun cs => ⟨cs⟩

/-- Does the text contain a split boundary (a newline followed by
`\d+\.`) anywhere? -/
def hasBoundary : List Char → Bool
  | [] => false
  | c :: cs => (c = '\n' && startsNumDot cs) || hasBoundary cs

/-- Python `enumerate(parts, start=1)`. -/
def pyEnum : Nat → List α → List (Nat × α)
  | _, [] => []
  | n, x :: xs => (n, x) :: pyEnum (n + 1) xs

/-- The chunk id `f"{article.article.replace(' ', '_').lower()}_p{idx}"`. -/
def chunkIdOf (label : String) (idx : Nat) : String :=
  pyLower (spaceToUnderscore label) ++ "_p" ++ natToDec idx

/-- One iteration of the `for idx, part in enumerate(parts, start=1)` loop
of `iter_paragraph_chunks`: drop a segment that strips to empty, otherwise
yield the chunk with the ordinal-based id and the stripped text. -/
def chunkOfPart (a : Article) (ip : Nat × String) : Option Chunk :=
  let v := pyStrip ip.2
  if v = "" then none
  else some ⟨a.article, a.title, a.chapter, a.section_, chunkIdOf a.article ip.1, v⟩

/-- `iter_paragraph_chunks(article)` from `build_gdpr_corpus.py`. -/
def iter_paragraph_chunks (a : Article) : List Chunk :=
  if a.text = "" then []
  else
    let parts0 := splitParas a.text
    let parts := if parts0.length = 1 then [a.text] else parts0
    (pyEnum 1 parts).filterMap (chunkOfPart a)

/-- The full chunk collection of one corpus build (the `main` loop of
`build_gdpr_corpus.py` extends `iter_paragraph_chunks` over all parsed
articles in order). -/
def allChunks (articles : List Article) : List Chunk :=
  articles.flatMap iter_paragraph_chunks

/-! ## `GDPRKnowledgeBase` -/

/-- The `RetrievalResult` dataclass of `gdpr_knowledge_base.py`
(`score` is modelled as a rational). -/
structure RetrievalResult where
  chunk_id : String
  article : String
  title : String
  chapter : Option String
  section_ : Option String
  text : String
  score : ℚ
deriving DecidableEq, Repr

/-- The three on-disk artifacts `__init__` looks for; `none` models a
missing file.  The vectorizer is opaque to every claim under study and is
modelled by its presence alone; the matrix is modelled by its list of
rows of TF-IDF weights. -/
structure BundleFiles where
  vectorizer : Option Unit
  matrix : Option (List (List ℚ))
  index : Option (List Chunk)
deriving DecidableEq, Repr

/-- The state a successfully constructed `GDPRKnowledgeBase` holds. -/
structure LoadedKB where
  matrix : List (List ℚ)
  chunks : List Chunk
deriving DecidableEq, Repr

/-- The message of the `FileNotFoundError` raised by `__init__`. -/
def missingAssetsMsg : String :=
  "Missing GDPR knowledge assets. Run data/build_gdpr_corpus.py and data/build_gdpr_vector_store.py first."

/-- `GDPRKnowledgeBase.__init__`: raise when any of the three artifact
files is missing, otherwise load all three as they are (no consistency
check between matrix rows and chunk metadata is performed). -/
def gdprKBInit (b : BundleFiles) : Except String LoadedKB :=
  if b.vectorizer.isNone || b.matrix.isNone || b.index.isNone then
    .error missingAssetsMsg
  else
    match b.matrix, b.index with
    | some m, some idx => .ok ⟨m, idx⟩
    | _, _ => .error missingAssetsMsg

/-- A constructed knowledge base as `retrieve` uses it: the chunk-record
list and, for each query string, the vector of cosine similarities of the
matrix rows against the transformed query (one entry per matrix row).
The TF-IDF transform and the cosine kernel live in scikit-learn, outside
this repository; the similarity vector is therefore abstracted as a
function of the query. -/
structure KnowledgeBase where
  chunks : List Chunk
  sim : String → List ℚ

/-- `similarities.argsort()[::-1]`: the row indices sorted by ascending
similarity, then reversed (descending).  Ties are ordered deterministically
here; `numpy.argsort`'s default sort leaves tie order unspecified. -/
def argsortDesc (sims : List ℚ) : List Nat :=
  (List.insertionSort (fun i j => sims.getD i 0 ≤ sims.getD j 0)
    (List.range sims.length)).reverse

/-- Build one `RetrievalResult` from a chunk record and its score. -/
def mkResult (c : Chunk) (score : ℚ) : RetrievalResult :=
  ⟨c.chunk_id, c.article, c.title, c.chapter, c.section_, c.text, score⟩

/-- The `for idx in ranked_indices[: top_k * 2]` loop of `retrieve`:
skip candidates scoring below `min_score`, append the rest, and stop as
soon as `top_k` results are collected.  `self.chunks[idx]` raises an
`IndexError` when `idx` is out of range, modelled by `Except.error`. -/
def retrieveGo (sims : List ℚ) (chunks : List Chunk) (minScore : ℚ) (topK : Nat) :
    List Nat → List RetrievalResult → Except String (List RetrievalResult)
  | [], acc => .ok acc
  | idx :: rest, acc =>
    let score := sims.getD idx 0
    if score < minScore then retrieveGo sims chunks minScore topK rest acc
    else
      match chunks[idx]? with
      | none => .error "IndexError: list index out of range"
      | some c =>
        let acc' := acc ++ [mkResult c score]
        if topK ≤ acc'.length then .ok acc'
        else retrieveGo sims chunks minScore topK rest acc'

/-- `GDPRKnowledgeBase.retrieve(query, top_k, min_score)`. -/
def retrieve (kb : KnowledgeBase) (query : String) (topK : Nat) (minScore : ℚ) :
    Except String (List RetrievalResult) :=
  if pyStrip query = "" then .ok []
  else
    let sims := kb.sim query
    let ranked := argsortDesc sims
    retrieveGo sims kb.chunks minScore topK (ranked.take (topK * 2)) []

/-- The retrieval call inside `GDPRJudge.analyze_gdpr_compliance`
(`gdpr_judge.py`): `retrieve(scenario, top_k=5)` with the default
`min_score = 0.05` (the rational `mkRat 5 100`), wrapped in `try/except`
that logs and substitutes an empty passage list. -/
def judgeRetrievePassages (kb : KnowledgeBase) (scenario : String) :
    List RetrievalResult :=
  match retrieve kb scenario 5 (mkRat 5 100) with
  | .ok rs => rs
  | .error _ => []

/-- Placeholder chunk used with `List.getD` to state in-range lookups
totally (every use is guarded by an in-range hypothesis). -/
def dummyChunk : Chunk := ⟨"", "", none, none, "", ""⟩

/-- The reference walk of spec §4.4 / claim C2: take the first
`2 × top_k` ranked candidates, keep those scoring at least `min_score`,
and truncate to the first `top_k` accepted. -/
def specWalk (sims : List ℚ) (chunks : List Chunk) (minScore : ℚ) (topK : Nat) :
    List RetrievalResult :=
  ((((argsortDesc sims).take (2 * topK)).filter fun i => minScore ≤ sims.getD i 0).take
      topK).map fun i => mkResult (chunks.getD i dummyChunk) (sims.getD i 0)

/-! ## Spec-side comparison definitions for the chunk splitter -/

/-- Join character-list segments with a newline between consecutive
segments (the inverse of the paragraph split). -/
def joinNlChars : List (List Char) → List Char
  | [] => []
  | [p] => p
  | p :: ps => p ++ '\n' :: joinNlChars ps

/-- The chunk list as §4.2 of the spec words it: enumerate the pre-filter
split segments from 1, drop the segments that trim to empty (their
ordinals are not reused), and emit a chunk with the ordinal-based id and
the trimmed text for each survivor. -/
def chunkSpec (a : Article) : List Chunk :=
  ((pyEnum 1 (splitParas a.text)).filter fun ip => pyStrip ip.2 ≠ "").map
    fun ip => ⟨a.article, a.title, a.chapter, a.section_, chunkIdOf a.article ip.1, pyStrip ip.2⟩

/-- A sample article whose body has one numbered-paragraph boundary. -/
def exArt : Article := ⟨"Article 7", "T", none, none, "x\n1. y"⟩

/-! ## Concrete instances used by witnesses and counterexamples -/

/-- A sample chunk record. -/
def exChunk1 : Chunk := ⟨"Article 1", "T", none, none, "article_1_p1", "t1"⟩

/-- A second sample chunk record. -/
def exChunk2 : Chunk := ⟨"Article 2", "T", none, none, "article_2_p1", "t2"⟩

/-- A well-formed knowledge base: two chunks, two matrix rows. -/
def exKB : KnowledgeBase := ⟨[exChunk1, exChunk2], fun _ => [1, 0]⟩

/-- A mismatched knowledge base: one chunk record but two matrix rows
(the state `__init__` accepts because it never cross-checks the bundle). -/
def exKBBad : KnowledgeBase := ⟨[exChunk1], fun _ => [1, mkRat 1 2]⟩

/-- A bundle whose artifacts are all present but inconsistent:
two matrix rows against one metadata record. -/
def exBundleMismatch : BundleFiles := ⟨some (), some [[1], [1]], some [exChunk1]⟩

/-- A bundle missing only the vectorizer artifact. -/
def exBundleNoVec : BundleFiles := ⟨none, some [[1]], some [exChunk1]⟩

/-- A bundle missing only the matrix artifact. -/
def exBundleNoMatrix : BundleFiles := ⟨some (), none, some [exChunk1]⟩

/-! ## Retrieval loop lemmas -/

theorem retrieveGo_cons (sims : List ℚ) (chunks : List Chunk) (m : ℚ) (k : Nat)
    (idx : Nat) (rest : List Nat) (acc : List RetrievalResult) :
    retrieveGo sims chunks m k (idx :: rest) acc =
      if sims.getD idx 0 < m then retrieveGo sims chunks m k rest acc
      else
        match chunks[idx]? with
        | none => .error "IndexError: list index out of range"
        | some c =>
          if k ≤ (acc ++ [mkResult c (sims.getD idx 0)]).length then
            .ok (acc ++ [mkResult c (sims.getD idx 0)])
          else retrieveGo sims chunks m k rest (acc ++ [mkResult c (sims.getD idx 0)]) := rfl

theorem retrieveGo_spec (sims : List ℚ) (chunks : List Chunk) (m : ℚ) (k : Nat) :
    ∀ (l : List Nat) (acc : List RetrievalResult),
      (∀ i ∈ l, i < chunks.length) → acc.length < k →
      retrieveGo sims chunks m k l acc =
        .ok (acc ++ (((l.filter fun i => m ≤ sims.getD i 0).take (k - acc.length)).map
          fun i => mkResult (chunks.getD i dummyChunk) (sims.getD i 0)))
  | [], acc, _, _ => by simp only [retrieveGo, List.filter_nil, List.take_nil,
      List.map_nil, List.append_nil]
  | idx :: rest, acc, hin, hlen => by
    have hidx : idx < chunks.length := hin idx (List.mem_cons_self idx rest)
    have hget : chunks[idx]? = some (chunks.getD idx dummyChunk) := by
      rw [List.getD_eq_getElem chunks dummyChunk hidx]
      exact List.getElem?_eq_getElem hidx
    rw [retrieveGo_cons]
    by_cases hs : sims.getD idx 0 < m
    · have hfil : List.filter (fun i => decide (m ≤ sims.getD i 0)) (idx :: rest)
          = List.filter (fun i => decide (m ≤ sims.getD i 0)) rest := by
        rw [List.filter_cons, if_neg]
        simp only [decide_eq_true_eq]
        exact not_le.mpr hs
      rw [if_pos hs,
        retrieveGo_spec sims chunks m k rest acc
          (fun i hi => hin i (List.mem_cons_of_mem idx hi)) hlen, hfil]
    · have hms : m ≤ sims.getD idx 0 := not_lt.mp hs
      have hfil : List.filter (fun i => decide (m ≤ sims.getD i 0)) (idx :: rest)
          = idx :: List.filter (fun i => decide (m ≤ sims.getD i 0)) rest := by
        rw [List.filter_cons, if_pos]
        simp only [decide_eq_true_eq]
        exact hms
      rw [if_neg hs, hget]
      dsimp only
      have hlacc : (acc ++ [mkResult (chunks.getD idx dummyChunk) (sims.getD idx 0)]).length
          = acc.length + 1 := by
        simp
      by_cases hk : k ≤ (acc ++ [mkResult (chunks.getD idx dummyChunk) (sims.getD idx 0)]).length
      · have hkeq : k - acc.length = 1 := by
          rw [hlacc] at hk
          omega
        rw [if_pos hk, hfil, hkeq]
        simp only [List.take_succ_cons, List.take_zero, List.map_cons, List.map_nil]
      · have hlen' : (acc ++ [mkResult (chunks.getD idx dummyChunk) (sims.getD idx 0)]).length < k :=
          not_le.mp hk
        rw [if_neg hk,
          retrieveGo_spec sims chunks m k rest _
            (fun i hi => hin i (List.mem_cons_of_mem idx hi)) hlen', hfil, hlacc]
        have harith : k - acc.length = (k - (acc.length + 1)) + 1 := by
          rw [hlacc] at hlen'
          omega
        rw [harith]
        simp only [List.take_succ_cons, List.map_cons, List.append_assoc,
          List.singleton_append, List.cons_append, List.nil_append]

/-- Every index produced by `argsortDesc` is a valid row index. -/
theorem argsortDesc_mem {sims : List ℚ} {i : Nat} (h : i ∈ argsortDesc sims) :
    i < sims.length := by
  have := List.mem_reverse.mp h
  have := (List.perm_insertionSort
    (fun i j => sims.getD i 0 ≤ sims.getD j 0) (List.range sims.length)).mem_iff.mp this
  exact List.mem_range.mp this

/-- `argsortDesc` lists indices in non-increasing order of score. -/
theorem argsortDesc_pairwise (sims : List ℚ) :
    (argsortDesc sims).Pairwise fun i j => sims.getD j 0 ≤ sims.getD i 0 := by
  haveI : IsTotal Nat fun i j => sims.getD i 0 ≤ sims.getD j 0 :=
    ⟨fun a b => le_total _ _⟩
  haveI : IsTrans Nat fun i j => sims.getD i 0 ≤ sims.getD j 0 :=
    ⟨fun a b c hab hbc => le_trans hab hbc⟩
  have hs := List.sorted_insertionSort
    (fun i j => sims.getD i 0 ≤ sims.getD j 0) (List.range sims.length)
  exact List.pairwise_reverse.mpr hs

/-- `retrieve` is the reference walk of spec §4.4: examine the first
`2 × top_k` ranked candidates, accept those scoring at least `min_score`,
stop after `top_k` acceptances (given the row/metadata alignment
invariant). -/
theorem retrieve_eq_specWalk (kb : KnowledgeBase) (q : String) (k : Nat) (m : ℚ)
    (halign : kb.chunks.length = (kb.sim q).length) :
    retrieve kb q k m =
      .ok (if pyStrip q = "" then [] else specWalk (kb.sim q) kb.chunks m k) := by
  by_cases hq : pyStrip q = ""
  · simp [retrieve, hq]
  · rw [if_neg hq]
    rcases Nat.eq_zero_or_pos k with hk | hk
    · subst hk
      simp [retrieve, hq, specWalk, retrieveGo]
    · rw [show retrieve kb q k m
          = retrieveGo (kb.sim q) kb.chunks m k
              (((argsortDesc (kb.sim q)).take (k * 2))) [] by simp [retrieve, hq]]
      rw [retrieveGo_spec (kb.sim q) kb.chunks m k _ []
        (fun i hi => halign ▸ argsortDesc_mem ((List.take_sublist _ _).mem hi))
        (by simpa using hk)]
      simp [specWalk, Nat.mul_comm]

/-! ## Properties of the reference walk -/

theorem specWalk_length (sims : List ℚ) (chunks : List Chunk) (m : ℚ) (k : Nat) :
    (specWalk sims chunks m k).length ≤ k := by
  rw [specWalk, List.length_map]
  exact List.length_take_le _ _

theorem specWalk_score {sims : List ℚ} {chunks : List Chunk} {m : ℚ} {k : Nat}
    {r : RetrievalResult} (hr : r ∈ specWalk sims chunks m k) : m ≤ r.score := by
  rw [specWalk] at hr
  rcases List.mem_map.mp hr with ⟨i, hi, hri⟩
  have hi' := (List.take_sublist _ _).mem hi
  have := List.of_mem_filter hi'
  rw [← hri]
  simpa [mkResult] using this

theorem specWalk_sorted (sims : List ℚ) (chunks : List Chunk) (m : ℚ) (k : Nat) :
    (specWalk sims chunks m k).Pairwise fun a b => b.score ≤ a.score := by
  rw [specWalk]
  refine List.pairwise_map.mpr (List.Pairwise.sublist ?_ (argsortDesc_pairwise sims))
  exact (List.take_sublist _ _).trans
    ((List.filter_sublist _).trans (List.take_sublist _ _))

/-! ## Claim theorems: retrieval -/

/-- C1: for every query, positive `top_k` and `min_score ∈ [0,1]`,
`retrieve` (on a bundle satisfying the row/metadata alignment invariant)
returns a list of at most `top_k` results, each scoring at least
`min_score`, sorted in non-increasing score order. -/
theorem retrieve_len_score_sorted (kb : KnowledgeBase) (q : String) (k : Nat) (m : ℚ)
    (hk : 0 < k) (hm0 : 0 ≤ m) (hm1 : m ≤ 1)
    (halign : kb.chunks.length = (kb.sim q).length) :
    ∃ rs, retrieve kb q k m = .ok rs ∧ rs.length ≤ k ∧ (∀ r ∈ rs, m ≤ r.score) ∧
      rs.Pairwise fun a b => b.score ≤ a.score := by
  by_cases hq : pyStrip q = ""
  · refine ⟨[], ?_, by simp, by simp, by simp⟩
    rw [retrieve_eq_specWalk kb q k m halign, if_pos hq]
  · refine ⟨specWalk (kb.sim q) kb.chunks m k, ?_, specWalk_length _ _ _ _,
      fun r hr => specWalk_score hr, specWalk_sorted _ _ _ _⟩
    rw [retrieve_eq_specWalk kb q k m halign, if_neg hq]

/-- Witness for C1 at a concrete aligned knowledge base. -/
theorem retrieve_len_score_sorted_witness :
    ∃ rs, retrieve exKB "q" 1 0 = .ok rs ∧ rs.length ≤ 1 ∧ (∀ r ∈ rs, 0 ≤ r.score) ∧
      rs.Pairwise fun a b => b.score ≤ a.score :=
  retrieve_len_score_sorted exKB "q" 1 0 (by decide) (by decide) (by decide) rfl

/-- C2: `retrieve` examines at most `2 × top_k` ranked candidates in
descending-score order, accepts those scoring at least `min_score`
(below-threshold candidates consume no result slot but count toward the
budget), and stops at `top_k` acceptances — i.e. it equals
`take top_k ∘ filter (score ≥ min_score) ∘ take (2 × top_k)` over the
descending ranking. -/
theorem retrieve_budgeted_walk (kb : KnowledgeBase) (q : String) (k : Nat) (m : ℚ)
    (halign : kb.chunks.length = (kb.sim q).length) :
    retrieve kb q k m =
      .ok (if pyStrip q = "" then [] else specWalk (kb.sim q) kb.chunks m k) :=
  retrieve_eq_specWalk kb q k m halign

/-- Witness for C2 at a concrete aligned knowledge base. -/
theorem retrieve_budgeted_walk_witness :
    retrieve exKB "q" 1 0 =
      .ok (if pyStrip "q" = "" then [] else specWalk (exKB.sim "q") exKB.chunks 0 1) :=
  retrieve_budgeted_walk exKB "q" 1 0 rfl

/-! ## Claim theorems: bundle loading -/

/-- C5 counterexample: a bundle whose matrix row count (2) disagrees with
its metadata length (1) is accepted by construction — `__init__` returns
normally instead of failing. -/
theorem init_accepts_mismatched_bundle :
    gdprKBInit exBundleMismatch = .ok ⟨[[1], [1]], [exChunk1]⟩ ∧
      (2 : Nat) ≠ (1 : Nat) := ⟨rfl, by decide⟩

/-- C5 amended: construction performs no row/metadata consistency check;
whenever all three artifacts are present it succeeds and holds the matrix
and metadata exactly as loaded (no truncation to the shorter length). -/
theorem init_no_consistency_check (v : Unit) (mtx : List (List ℚ)) (idx : List Chunk) :
    gdprKBInit ⟨some v, some mtx, some idx⟩ = .ok ⟨mtx, idx⟩ := rfl

/-- C6 counterexample: the construction error for a missing vectorizer
and the construction error for a missing matrix are the same generic
message, so the error does not identify which artifact is absent. -/
theorem init_error_not_specific :
    gdprKBInit exBundleNoVec = .error missingAssetsMsg ∧
      gdprKBInit exBundleNoMatrix = .error missingAssetsMsg ∧
      exBundleNoVec.vectorizer = none ∧ exBundleNoVec.matrix ≠ none ∧
      exBundleNoMatrix.matrix = none ∧ exBundleNoMatrix.vectorizer ≠ none :=
  ⟨rfl, rfl, rfl, by decide, rfl, by decide⟩

/-- C6 amended: if any of the three artifacts is missing, construction
fails with the fixed generic `FileNotFoundError` message (which names the
rebuild scripts, not the specific missing artifact). -/
theorem init_missing_asset_error (b : BundleFiles)
    (h : b.vectorizer = none ∨ b.matrix = none ∨ b.index = none) :
    gdprKBInit b = .error missingAssetsMsg := by
  rcases b with ⟨v, mtx, idx⟩
  rw [gdprKBInit]
  rcases h with h | h | h <;> simp_all

/-- Witness for the amended C6 at a concrete bundle. -/
theorem init_missing_asset_error_witness :
    gdprKBInit exBundleNoMatrix = .error missingAssetsMsg :=
  init_missing_asset_error exBundleNoMatrix (Or.inr (Or.inl rfl))

/-! ## Claim theorems: query-time failure containment -/

/-- C8 counterexample: on a mismatched bundle (two matrix rows, one
metadata record) a runtime `IndexError` inside
`GDPRKnowledgeBase.retrieve` propagates out of `retrieve` — the engine
does not catch it and return an empty list. -/
theorem retrieve_propagates_index_error :
    retrieve exKBBad "q" 5 (mkRat 5 100) = .error "IndexError: list index out of range" := rfl

/-- C8 amended: the containment lives one level up, in
`GDPRJudge.analyze_gdpr_compliance`: its retrieval call passes a
successful result through unchanged and replaces any exception from
`retrieve` with an empty passage list. -/
theorem judge_contains_retrieve_failure (kb : KnowledgeBase) (q : String) :
    (∀ rs, retrieve kb q 5 (mkRat 5 100) = .ok rs → judgeRetrievePassages kb q = rs) ∧
      (∀ e, retrieve kb q 5 (mkRat 5 100) = .error e → judgeRetrievePassages kb q = []) := by
  constructor
  · intro rs h
    rw [judgeRetrievePassages, h]
  · intro e h
    rw [judgeRetrievePassages, h]

/-- Witness for the amended C8: the failing bundle above yields an empty
passage list at the judge boundary. -/
theorem judge_contains_retrieve_failure_witness :
    judgeRetrievePassages exKBBad "q" = [] :=
  (judge_contains_retrieve_failure exKBBad "q").2 "IndexError: list index out of range" rfl

/-! ## Paragraph-split lemmas -/

theorem joinNlChars_singleton (p : List Char) : joinNlChars [p] = p := rfl

theorem joinNlChars_cons_cons (p q : List Char) (qs : List (List Char)) :
    joinNlChars (p :: q :: qs) = p ++ '\n' :: joinNlChars (q :: qs) := rfl

theorem numDotTail_append {p : List Char} (r : List Char) (h : numDotTail p = true) :
    numDotTail (p ++ r) = true := by
  induction p with
  | nil => simp [numDotTail] at h
  | cons c cs ih =>
    rw [List.cons_append]
    by_cases hc : c = '.'
    · rw [numDotTail, if_pos hc]
    · rw [numDotTail, if_neg hc] at h
      rcases Bool.and_eq_true_iff.mp h with ⟨h1, h2⟩
      rw [numDotTail, if_neg hc, h1, ih h2]
      rfl

theorem startsNumDot_append {p : List Char} (r : List Char)
    (h : startsNumDot p = true) : startsNumDot (p ++ r) = true := by
  cases p with
  | nil => simp [startsNumDot] at h
  | cons c cs =>
    rw [startsNumDot] at h
    rcases Bool.and_eq_true_iff.mp h with ⟨h1, h2⟩
    rw [List.cons_append, startsNumDot, h1, numDotTail_append r h2]
    rfl

theorem numDotTail_before_newline {p r : List Char}
    (h : numDotTail (p ++ '\n' :: r) = true) : numDotTail p = true := by
  induction p with
  | nil =>
    rw [List.nil_append, numDotTail] at h
    rw [if_neg (by decide : ¬ ('\n' : Char) = '.')] at h
    rcases Bool.and_eq_true_iff.mp h with ⟨h1, _⟩
    exact absurd h1 (by decide)
  | cons c cs ih =>
    by_cases hc : c = '.'
    · rw [numDotTail, if_pos hc]
    · rw [List.cons_append, numDotTail, if_neg hc] at h
      rcases Bool.and_eq_true_iff.mp h with ⟨h1, h2⟩
      rw [numDotTail, if_neg hc, h1, ih h2]
      rfl

theorem startsNumDot_before_newline {p r : List Char}
    (h : startsNumDot (p ++ '\n' :: r) = true) : startsNumDot p = true := by
  cases p with
  | nil =>
    rw [List.nil_append, startsNumDot] at h
    rcases Bool.and_eq_true_iff.mp h with ⟨h1, _⟩
    exact absurd h1 (by decide)
  | cons c cs =>
    rw [List.cons_append, startsNumDot] at h
    rcases Bool.and_eq_true_iff.mp h with ⟨h1, h2⟩
    rw [startsNumDot, h1, numDotTail_before_newline h2]
    rfl

theorem splitParasGo_ne_nil (cs : List Char) : splitParasGo cs ≠ [] := by
  induction cs with
  | nil => simp [splitParasGo]
  | cons c cs ih =>
    rw [splitParasGo]
    by_cases hb : (c = '\n' && startsNumDot cs) = true
    · simp [hb]
    · rw [if_neg hb]
      rcases hgo : splitParasGo cs with _ | ⟨p, ps⟩
      · exact absurd hgo ih
      · simp

theorem splitParasGo_join : ∀ cs : List Char, joinNlChars (splitParasGo cs) = cs := by
  intro cs
  induction cs with
  | nil => rfl
  | cons c cs ih =>
    rw [splitParasGo]
    by_cases hb : (c = '\n' && startsNumDot cs) = true
    · rw [if_pos hb]
      rcases hgo : splitParasGo cs with _ | ⟨p, ps⟩
      · exact absurd hgo (splitParasGo_ne_nil cs)
      · have hc : c = '\n' := decide_eq_true_eq.mp (Bool.and_eq_true_iff.mp hb).1
        rw [hgo] at ih
        rw [joinNlChars_cons_cons, List.nil_append, ih, hc]
    · rw [if_neg hb]
      rcases hgo : splitParasGo cs with _ | ⟨p, ps⟩
      · exact absurd hgo (splitParasGo_ne_nil cs)
      · dsimp only
        rw [hgo] at ih
        cases ps with
        | nil =>
          rw [joinNlChars_singleton] at ih
          rw [joinNlChars_singleton, ih]
        | cons q qs =>
          rw [joinNlChars_cons_cons] at ih
          rw [joinNlChars_cons_cons, List.cons_append, ih]

theorem splitParasGo_head_starts {cs p : List Char} {ps : List (List Char)}
    (hgo : splitParasGo cs = p :: ps) (h : startsNumDot cs = true) :
    startsNumDot p = true := by
  have hj := splitParasGo_join cs
  rw [hgo] at hj
  cases ps with
  | nil =>
    rw [joinNlChars_singleton] at hj
    rw [hj]
    exact h
  | cons q qs =>
    rw [joinNlChars_cons_cons] at hj
    rw [← hj] at h
    exact startsNumDot_before_newline h

theorem splitParasGo_tail_starts : ∀ cs : List Char, ∀ p ∈ (splitParasGo cs).tail,
    startsNumDot p = true := by
  intro cs
  induction cs with
  | nil =>
    intro p hp
    rw [splitParasGo] at hp
    simp at hp
  | cons c cs ih =>
    intro p hp
    rw [splitParasGo] at hp
    by_cases hb : (c = '\n' && startsNumDot cs) = true
    · rw [if_pos hb, List.tail_cons] at hp
      have hcs : startsNumDot cs = true := (Bool.and_eq_true_iff.mp hb).2
      rcases hgo : splitParasGo cs with _ | ⟨p', ps'⟩
      · exact absurd hgo (splitParasGo_ne_nil cs)
      · rw [hgo] at hp
        rcases List.mem_cons.mp hp with rfl | hp'
        · exact splitParasGo_head_starts hgo hcs
        · exact ih p (by rw [hgo]; exact hp')
    · rw [if_neg hb] at hp
      rcases hgo : splitParasGo cs with _ | ⟨p', ps'⟩
      · exact absurd hgo (splitParasGo_ne_nil cs)
      · rw [hgo] at hp
        exact ih p (by rw [hgo, List.tail_cons]; exact hp)

theorem splitParasGo_no_boundary : ∀ cs : List Char, ∀ p ∈ splitParasGo cs,
    hasBoundary p = false := by
  intro cs
  induction cs with
  | nil =>
    intro p hp
    rw [splitParasGo] at hp
    rcases List.mem_singleton.mp hp with rfl
    rfl
  | cons c cs ih =>
    intro p hp
    rw [splitParasGo] at hp
    by_cases hb : (c = '\n' && startsNumDot cs) = true
    · rw [if_pos hb] at hp
      rcases List.mem_cons.mp hp with rfl | hp'
      · rfl
      · exact ih p hp'
    · rw [if_neg hb] at hp
      rcases hgo : splitParasGo cs with _ | ⟨p', ps'⟩
      · exact absurd hgo (splitParasGo_ne_nil cs)
      · rw [hgo] at hp
        rcases List.mem_cons.mp hp with rfl | hp'
        · rw [hasBoundary]
          have h1 : hasBoundary p' = false := ih p' (hgo ▸ List.mem_cons_self p' ps')
          have h2 : (c = '\n' && startsNumDot p') = false := by
            by_cases hc : c = '\n'
            · have hns : startsNumDot cs = false := by
                rcases hcs : startsNumDot cs with _ | _
                · rfl
                · exact absurd (by rw [hcs, hc]; rfl :
                    (c = '\n' && startsNumDot cs) = true) hb
              rcases hsp : startsNumDot p' with _ | _
              · simp [hsp]
              · exfalso
                have hj := splitParasGo_join cs
                rw [hgo] at hj
                cases ps' with
                | nil =>
                  rw [joinNlChars_singleton] at hj
                  rw [hj] at hsp
                  rw [hsp] at hns
                  exact Bool.true_eq_false.mp hns
                | cons q qs =>
                  rw [joinNlChars_cons_cons] at hj
                  have happ := startsNumDot_append ('\n' :: joinNlChars (q :: qs)) hsp
                  rw [hj] at happ
                  rw [happ] at hns
                  exact Bool.true_eq_false.mp hns
            · simp [hc]
          rw [h1, h2]
          rfl
        · exact ih p (by rw [hgo]; exact List.mem_cons_of_mem p' hp')

theorem splitParasGo_of_no_boundary {cs : List Char} (h : hasBoundary cs = false) :
    splitParasGo cs = [cs] := by
  induction cs with
  | nil => rfl
  | cons c cs ih =>
    rw [hasBoundary, Bool.or_eq_false_iff] at h
    rw [splitParasGo, if_neg (by rw [h.1]; exact Bool.false_ne_true), ih h.2]

theorem pyJoin_cons_cons (sep s t : String) (rest : List String) :
    pyJoin sep (s :: t :: rest) = s ++ sep ++ pyJoin sep (t :: rest) := rfl

/-- Joining mapped string segments with `"\n"` matches the character-level
join. -/
theorem pyJoin_nl_map : ∀ l : List (List Char),
    pyJoin "\n" (l.map fun cs => (⟨cs⟩ : String)) = ⟨joinNlChars l⟩ := by
  intro l
  induction l with
  | nil => rfl
  | cons p ps ih =>
    cases ps with
    | nil => rfl
    | cons q qs =>
      rw [List.map_cons, List.map_cons, pyJoin_cons_cons, joinNlChars_cons_cons]
      rw [List.map_cons] at ih
      rw [ih]
      apply String.ext
      simp [String.data_append]

/-- The enumerate/filter loop of `iter_paragraph_chunks` is
filter-then-map over the enumerated pre-filter segments. -/
theorem filterMap_chunkOfPart (a : Article) : ∀ (ps : List String) (n : Nat),
    (pyEnum n ps).filterMap (chunkOfPart a) =
      ((pyEnum n ps).filter fun ip => pyStrip ip.2 ≠ "").map
        fun ip => ⟨a.article, a.title, a.chapter, a.section_,
          chunkIdOf a.article ip.1, pyStrip ip.2⟩ := by
  intro ps
  induction ps with
  | nil => intro n; rfl
  | cons p ps ih =>
    intro n
    rw [pyEnum, List.filterMap_cons, List.filter_cons]
    by_cases hv : pyStrip p = ""
    · have h1 : chunkOfPart a (n, p) = none := by
        rw [chunkOfPart]
        dsimp only
        rw [hv, if_pos rfl]
      rw [h1]
      dsimp only
      rw [if_neg (by simp [hv])]
      exact ih (n + 1)
    · have h1 : chunkOfPart a (n, p) = some ⟨a.article, a.title, a.chapter, a.section_,
          chunkIdOf a.article n, pyStrip p⟩ := by
        rw [chunkOfPart]
        dsimp only
        rw [if_neg hv]
      rw [h1]
      dsimp only
      rw [if_pos (by simp [hv]), List.map_cons, ih (n + 1)]

/-- A split whose result has a single segment reproduced the whole text. -/
theorem splitParas_length_one {t : String} (h : (splitParas t).length = 1) :
    splitParas t = [t] := by
  rw [splitParas] at h ⊢
  rcases hgo : splitParasGo t.data with _ | ⟨p, ps⟩
  · exact absurd hgo (splitParasGo_ne_nil t.data)
  · cases ps with
    | nil =>
      have hj := splitParasGo_join t.data
      rw [hgo, joinNlChars] at hj
      rw [hj]
      rfl
    | cons q qs =>
      rw [hgo] at h
      simp at h

/-! ## Claim theorem: the chunk splitter (C4) -/

/-- C4: the body is split exactly at newlines immediately followed by
`\d+\.` — the parts joined back with a newline give the body, every part
after the first starts with such a numeric label, and no part contains an
internal boundary; a boundary-free body stays one segment; and the chunk
list enumerates the pre-filter segments from 1, drops segments that trim
to empty without reusing their ordinals, and gives each survivor the id
`<label, spaces→underscore, lowercased>_p<ordinal>` and the trimmed text. -/
theorem chunk_split_spec (t : String) (a : Article) :
    pyJoin "\n" (splitParas t) = t ∧
    (∀ p ∈ (splitParas t).tail, startsNumDot p.data = true) ∧
    (∀ p ∈ splitParas t, hasBoundary p.data = false) ∧
    (hasBoundary t.data = false → splitParas t = [t]) ∧
    iter_paragraph_chunks a = (if a.text = "" then [] else chunkSpec a) := by
  refine ⟨?_, ?_, ?_, ?_, ?_⟩
  · rw [splitParas, pyJoin_nl_map, splitParasGo_join]
  · intro p hp
    rw [splitParas] at hp
    rcases hgo : splitParasGo t.data with _ | ⟨q, qs⟩
    · exact absurd hgo (splitParasGo_ne_nil t.data)
    · rw [hgo, List.map_cons, List.tail_cons] at hp
      rcases List.mem_map.mp hp with ⟨cs, hcs, rfl⟩
      exact splitParasGo_tail_starts t.data cs (by rw [hgo]; exact hcs)
  · intro p hp
    rw [splitParas] at hp
    rcases List.mem_map.mp hp with ⟨cs, hcs, rfl⟩
    exact splitParasGo_no_boundary t.data cs hcs
  · intro h
    rw [splitParas, splitParasGo_of_no_boundary h]
    rfl
  · by_cases ht : a.text = ""
    · simp [iter_paragraph_chunks, ht]
    · rw [iter_paragraph_chunks, if_neg ht, if_neg ht, chunkSpec]
      dsimp only
      by_cases hl : (splitParas a.text).length = 1
      · rw [if_pos hl, splitParas_length_one hl, filterMap_chunkOfPart]
      · rw [if_neg hl, filterMap_chunkOfPart]

/-- Witness for C4 at concrete inputs. -/
theorem chunk_split_spec_witness :
    pyJoin "\n" (splitParas "1a\n2. b") = "1a\n2. b" ∧
    splitParas "plain" = ["plain"] ∧
    iter_paragraph_chunks exArt = (if exArt.text = "" then [] else chunkSpec exArt) :=
  ⟨(chunk_split_spec "1a\n2. b" exArt).1,
   (chunk_split_spec "plain" exArt).2.2.2.1 (by decide),
   (chunk_split_spec "plain" exArt).2.2.2.2⟩

/-! ## Heading matcher facts -/

theorem matchLitCI_head {x : Char} {xs cs r : List Char}
    (h : matchLitCI (x :: xs) cs = some r) :
    ∃ c cs', cs = c :: cs' ∧ c.toLower = x := by
  cases cs with
  | nil => simp [matchLitCI] at h
  | cons c cs' =>
    rw [matchLitCI] at h
    by_cases hc : c.toLower = x
    · exact ⟨c, cs', rfl, hc⟩
    · rw [if_neg hc] at h
      exact absurd h (by simp)

theorem matchWordClass_head {x : Char} {xs : List Char} {cls : Char → Bool} {s : String}
    (h : matchWordClass (x :: xs) cls s = true) :
    ∃ c cs', s.data = c :: cs' ∧ c.toLower = x := by
  rw [matchWordClass] at h
  rcases hm : matchLitCI (x :: xs) s.data with _ | r
  · rw [hm] at h
    simp at h
  · exact matchLitCI_head hm

theorem matchArticleHeader_head {s : String} (h : matchArticleHeader s = true) :
    ∃ c cs', s.data = c :: cs' ∧ c.toLower = 'a' := by
  rw [matchArticleHeader] at h
  rcases hm : matchLitCI "article".data s.data with _ | r
  · rw [hm] at h
    simp at h
  · rw [show "article".data = 'a' :: "rticle".data from rfl] at hm
    exact matchLitCI_head hm

theorem matchChapterHeader_head {s : String} (h : matchChapterHeader s = true) :
    ∃ c cs', s.data = c :: cs' ∧ c.toLower = 'c' := by
  rw [matchChapterHeader] at h
  rw [show "chapter".data = 'c' :: "hapter".data from rfl] at h
  exact matchWordClass_head h

theorem matchSectionHeader_head {s : String} (h : matchSectionHeader s = true) :
    ∃ c cs', s.data = c :: cs' ∧ c.toLower = 's' := by
  rw [matchSectionHeader] at h
  rw [show "section".data = 's' :: "ection".data from rfl] at h
  exact matchWordClass_head h

theorem ne_empty_of_data_cons {s : String} {c : Char} {cs : List Char}
    (h : s.data = c :: cs) : s ≠ "" := by
  intro he
  rw [he] at h
  exact List.noConfusion h

/-- The three heading patterns are mutually exclusive (their literal
keywords start with different letters). -/
theorem matchArticleHeader_not_chapter {s : String} (hA : matchArticleHeader s = true) :
    matchChapterHeader s = false := by
  rcases matchArticleHeader_head hA with ⟨c, cs, hd, hla⟩
  by_contra hc
  rw [Bool.not_eq_false] at hc
  rcases matchChapterHeader_head hc with ⟨c', cs', hd', hlc⟩
  rw [hd] at hd'
  injection hd' with h1 _
  rw [← h1, hla] at hlc
  exact absurd hlc (by decide)

theorem matchArticleHeader_not_section {s : String} (hA : matchArticleHeader s = true) :
    matchSectionHeader s = false := by
  rcases matchArticleHeader_head hA with ⟨c, cs, hd, hla⟩
  by_contra hc
  rw [Bool.not_eq_false] at hc
  rcases matchSectionHeader_head hc with ⟨c', cs', hd', hlc⟩
  rw [hd] at hd'
  injection hd' with h1 _
  rw [← h1, hla] at hlc
  exact absurd hlc (by decide)

theorem matchSectionHeader_not_chapter {s : String} (hS : matchSectionHeader s = true) :
    matchChapterHeader s = false := by
  rcases matchSectionHeader_head hS with ⟨c, cs, hd, hls⟩
  by_contra hc
  rw [Bool.not_eq_false] at hc
  rcases matchChapterHeader_head hc with ⟨c', cs', hd', hlc⟩
  rw [hd] at hd'
  injection hd' with h1 _
  rw [← h1, hls] at hlc
  exact absurd hlc (by decide)

/-! ## The segmenter loop, one step at a time -/

theorem parseLoop_cons (fuel : Nat) (l : String) (rest : List String)
    (ch sec : Option String) :
    parseLoop (fuel + 1) (l :: rest) ch sec =
      (if pyStrip l = "" then parseLoop fuel rest ch sec
       else if matchChapterHeader (pyStrip l) then
         match dropBlanks rest with
         | [] => parseLoop fuel rest (some (headingLabel (pyStrip l) none)) none
         | t :: rest' =>
           if isHeading (pyStrip t) then
             parseLoop fuel rest (some (headingLabel (pyStrip l) none)) none
           else
             parseLoop fuel rest'
               (some (headingLabel (pyStrip l) (some (pyStrip t)))) none
       else if matchSectionHeader (pyStrip l) then
         match dropBlanks rest with
         | [] => parseLoop fuel rest ch (some (headingLabel (pyStrip l) none))
         | t :: rest' =>
           if isHeading (pyStrip t) then
             parseLoop fuel rest ch (some (headingLabel (pyStrip l) none))
           else
             parseLoop fuel rest' ch
               (some (headingLabel (pyStrip l) (some (pyStrip t))))
       else if matchArticleHeader (pyStrip l) then
         match dropBlanks rest with
         | [] => ⟨articleLabel (pyStrip l), "", ch, sec, ""⟩ :: parseLoop fuel [] ch sec
         | t :: rest' =>
           if isHeading (pyStrip t) then
             match scanBody (t :: rest') with
             | (body, rem) =>
               ⟨articleLabel (pyStrip l), "", ch, sec, pyJoin "\n" body⟩ ::
                 parseLoop fuel rem ch sec
           else
             match scanBody rest' with
             | (body, rem) =>
               ⟨articleLabel (pyStrip l), normalize (pyStrip t), ch, sec, pyJoin "\n" body⟩ ::
                 parseLoop fuel rem ch sec
       else parseLoop fuel rest ch sec) := rfl

/-! ## Claim theorem: chapter/section threading (C3) -/

/-- C3: in one step of the segmenter loop, a Chapter heading installs a
new chapter context and resets the section context to absent; a Section
heading installs a new section context and leaves the chapter untouched;
an Article heading emits an Article carrying exactly the chapter and
section context active at that moment (and the loop continues under the
same context). -/
theorem parse_context_rules (fuel : Nat) (l : String) (rest : List String)
    (ch sec : Option String) :
    (matchChapterHeader (pyStrip l) = true →
      ∃ rest' c, parseLoop (fuel + 1) (l :: rest) ch sec =
        parseLoop fuel rest' (some c) none) ∧
    (matchSectionHeader (pyStrip l) = true →
      ∃ rest' t, parseLoop (fuel + 1) (l :: rest) ch sec =
        parseLoop fuel rest' ch (some t)) ∧
    (matchArticleHeader (pyStrip l) = true →
      ∃ rest' ttl body, parseLoop (fuel + 1) (l :: rest) ch sec =
        ⟨articleLabel (pyStrip l), ttl, ch, sec, body⟩ :: parseLoop fuel rest' ch sec) := by
  refine ⟨?_, ?_, ?_⟩
  · intro h
    have hne : pyStrip l ≠ "" := by
      rcases matchChapterHeader_head h with ⟨c, cs, hd, _⟩
      exact ne_empty_of_data_cons hd
    rw [parseLoop_cons, if_neg hne, if_pos h]
    rcases hdb : dropBlanks rest with _ | ⟨t, rest'⟩
    · exact ⟨rest, headingLabel (pyStrip l) none, rfl⟩
    · by_cases hh : isHeading (pyStrip t) = true
      · refine ⟨rest, headingLabel (pyStrip l) none, ?_⟩
        dsimp only
        rw [if_pos hh]
      · refine ⟨rest', headingLabel (pyStrip l) (some (pyStrip t)), ?_⟩
        dsimp only
        rw [if_neg hh]
  · intro h
    have hne : pyStrip l ≠ "" := by
      rcases matchSectionHeader_head h with ⟨c, cs, hd, _⟩
      exact ne_empty_of_data_cons hd
    have hch := matchSectionHeader_not_chapter h
    rw [parseLoop_cons, if_neg hne, if_neg (by simp [hch]), if_pos h]
    rcases hdb : dropBlanks rest with _ | ⟨t, rest'⟩
    · exact ⟨rest, headingLabel (pyStrip l) none, rfl⟩
    · by_cases hh : isHeading (pyStrip t) = true
      · refine ⟨rest, headingLabel (pyStrip l) none, ?_⟩
        dsimp only
        rw [if_pos hh]
      · refine ⟨rest', headingLabel (pyStrip l) (some (pyStrip t)), ?_⟩
        dsimp only
        rw [if_neg hh]
  · intro h
    have hne : pyStrip l ≠ "" := by
      rcases matchArticleHeader_head h with ⟨c, cs, hd, _⟩
      exact ne_empty_of_data_cons hd
    have hch := matchArticleHeader_not_chapter h
    have hse := matchArticleHeader_not_section h
    rw [parseLoop_cons, if_neg hne, if_neg (by simp [hch]), if_neg (by simp [hse]),
      if_pos h]
    rcases hdb : dropBlanks rest with _ | ⟨t, rest'⟩
    · exact ⟨[], "", "", rfl⟩
    · by_cases hh : isHeading (pyStrip t) = true
      · rcases hsb : scanBody (t :: rest') with ⟨body, rem⟩
        refine ⟨rem, "", pyJoin "\n" body, ?_⟩
        dsimp only
        rw [if_pos hh, hsb]
      · rcases hsb : scanBody rest' with ⟨body, rem⟩
        refine ⟨rem, normalize (pyStrip t), pyJoin "\n" body, ?_⟩
        dsimp only
        rw [if_neg hh, hsb]

/-- Witness for C3: one concrete step of each kind. -/
theorem parse_context_rules_witness :
    (∃ rest' c, parseLoop 2 ["Chapter I"] none none = parseLoop 1 rest' (some c) none) ∧
    (∃ rest' t, parseLoop 2 ["Section 1"] (some "X") none =
      parseLoop 1 rest' (some "X") (some t)) ∧
    (∃ rest' ttl body, parseLoop 2 ["Article 1"] (some "X") (some "Y") =
      ⟨articleLabel (pyStrip "Article 1"), ttl, some "X", some "Y", body⟩ ::
        parseLoop 1 rest' (some "X") (some "Y")) :=
  ⟨(parse_context_rules 1 "Chapter I" [] none none).1 rfl,
   (parse_context_rules 1 "Section 1" [] (some "X") none).2.1 rfl,
   (parse_context_rules 1 "Article 1" [] (some "X") (some "Y")).2.2 rfl⟩

/-! ## Claim theorem: total, heading-tolerant parsing (C9) -/

theorem parseLoop_no_headings : ∀ (lines : List String) (fuel : Nat)
    (ch sec : Option String),
    (∀ l ∈ lines, isHeading l = false) → parseLoop fuel lines ch sec = []
  | [], fuel, _, _, _ => by cases fuel <;> rfl
  | _ :: _, 0, _, _, _ => rfl
  | l :: rest, fuel + 1, ch, sec, h => by
    have hl := h l (List.mem_cons_self l rest)
    simp only [isHeading] at hl
    have h3 := Bool.or_eq_false_iff.mp hl
    have h4 := Bool.or_eq_false_iff.mp h3.1
    rw [parseLoop_cons]
    by_cases hne : pyStrip l = ""
    · rw [if_pos hne]
      exact parseLoop_no_headings rest fuel ch sec
        (fun x hx => h x (List.mem_cons_of_mem l hx))
    · rw [if_neg hne, if_neg (by simp [h4.2]), if_neg (by simp [h3.2]),
        if_neg (by simp [h4.1])]
      exact parseLoop_no_headings rest fuel ch sec
        (fun x hx => h x (List.mem_cons_of_mem l hx))

/-- C9: `parse_articles` is a total function (this embedding returns a
value for every input string); a line that is not a heading, encountered
at the top level of the scan, is silently skipped with no effect on the
result; and an input with no heading lines at all parses to the empty
article list. -/
theorem parse_articles_total_skips :
    (∀ g rest, isHeading g = false →
      parseArticlesLines (g :: rest) = parseArticlesLines rest) ∧
    (∀ raw : String, (∀ l ∈ toLines raw, isHeading l = false) →
      parse_articles raw = []) := by
  constructor
  · intro g rest hg
    simp only [isHeading] at hg
    have h3 := Bool.or_eq_false_iff.mp hg
    have h4 := Bool.or_eq_false_iff.mp h3.1
    rw [parseArticlesLines, parseArticlesLines, List.length_cons, parseLoop_cons]
    by_cases hne : pyStrip g = ""
    · rw [if_pos hne]
    · rw [if_neg hne, if_neg (by simp [h4.2]), if_neg (by simp [h3.2]),
        if_neg (by simp [h4.1])]
  · intro raw h
    rw [parse_articles, parseArticlesLines]
    exact parseLoop_no_headings _ _ _ _ h

/-- Witness for C9 at concrete inputs. -/
theorem parse_articles_total_skips_witness :
    parseArticlesLines ["intro text", "Article 1", "T"] =
      parseArticlesLines ["Article 1", "T"] ∧
    parse_articles "just prose\nno headings at all" = [] :=
  ⟨parse_articles_total_skips.1 "intro text" ["Article 1", "T"] (by decide),
   parse_articles_total_skips.2 "just prose\nno headings at all" (by decide)⟩

/-! ## Decimal rendering is injective -/

theorem decDigit_toNat {d : Nat} (h : d < 10) : (decDigit d).toNat = 48 + d := by
  interval_cases d <;> rfl

theorem decValL_append (xs : List Char) (c : Char) :
    decValL (xs ++ [c]) = 10 * decValL xs + (c.toNat - 48) := by
  rw [decValL, decValL, List.foldl_append]
  rfl

theorem natDecGo_val : ∀ (fuel n : Nat), n < fuel → decValL (natDecGo fuel n) = n := by
  intro fuel
  induction fuel with
  | zero => intro n hn; omega
  | succ fuel ih =>
    intro n hn
    by_cases h10 : n < 10
    · rw [natDecGo, if_pos h10, decValL]
      simp only [List.foldl_cons, List.foldl_nil]
      rw [decDigit_toNat h10]
      omega
    · rw [natDecGo, if_neg h10, decValL_append]
      have hdiv : n / 10 < fuel := by
        have : n / 10 < n := Nat.div_lt_self (by omega) (by omega)
        omega
      rw [ih (n / 10) hdiv, decDigit_toNat (Nat.mod_lt n (by omega))]
      omega

theorem natToDec_inj {a b : Nat} (h : natToDec a = natToDec b) : a = b := by
  have hd : natDecGo (a + 1) a = natDecGo (b + 1) b := congrArg String.data h
  have ha := natDecGo_val (a + 1) a (Nat.lt_succ_self a)
  have hb := natDecGo_val (b + 1) b (Nat.lt_succ_self b)
  rw [← ha, ← hb, hd]

theorem chunkIdOf_inj {label : String} {i j : Nat}
    (h : chunkIdOf label i = chunkIdOf label j) : i = j := by
  rw [chunkIdOf, chunkIdOf] at h
  have hd := congrArg String.data h
  simp only [String.data_append] at hd
  exact natToDec_inj (String.ext (List.append_cancel_left hd))

/-! ## Chunk-id uniqueness lemmas -/

theorem chunkOfPart_some {a : Article} {ip : Nat × String} {c : Chunk}
    (h : chunkOfPart a ip = some c) :
    c = ⟨a.article, a.title, a.chapter, a.section_,
      chunkIdOf a.article ip.1, pyStrip ip.2⟩ := by
  rw [chunkOfPart] at h
  by_cases hv : pyStrip ip.2 = ""
  · rw [if_pos hv] at h
    exact absurd h (by simp)
  · rw [if_neg hv] at h
    injection h with h
    exact h.symm

theorem mem_filterMap_chunk_id {a : Article} : ∀ (ps : List String) (n : Nat) (c : Chunk),
    c ∈ (pyEnum n ps).filterMap (chunkOfPart a) →
    ∃ j, n ≤ j ∧ c.chunk_id = chunkIdOf a.article j := by
  intro ps
  induction ps with
  | nil =>
    intro n c hc
    simp [pyEnum] at hc
  | cons p ps ih =>
    intro n c hc
    rw [pyEnum, List.filterMap_cons] at hc
    rcases hcp : chunkOfPart a (n, p) with _ | c0
    · rw [hcp] at hc
      rcases ih (n + 1) c hc with ⟨j, hj, hid⟩
      exact ⟨j, by omega, hid⟩
    · rw [hcp] at hc
      rcases List.mem_cons.mp hc with rfl | hc'
      · refine ⟨n, le_refl n, ?_⟩
        rw [chunkOfPart_some hcp]
      · rcases ih (n + 1) c hc' with ⟨j, hj, hid⟩
        exact ⟨j, by omega, hid⟩

theorem filterMap_chunk_ids_nodup (a : Article) : ∀ (ps : List String) (n : Nat),
    (((pyEnum n ps).filterMap (chunkOfPart a)).map fun c => c.chunk_id).Nodup := by
  intro ps
  induction ps with
  | nil =>
    intro n
    simp [pyEnum]
  | cons p ps ih =>
    intro n
    rw [pyEnum, List.filterMap_cons]
    rcases hcp : chunkOfPart a (n, p) with _ | c0
    · exact ih (n + 1)
    · dsimp only
      rw [List.map_cons, List.nodup_cons]
      constructor
      · intro hmem
        rcases List.mem_map.mp hmem with ⟨c', hc', hid⟩
        rcases mem_filterMap_chunk_id ps (n + 1) c' hc' with ⟨j, hj, hid'⟩
        have hc0id : c0.chunk_id = chunkIdOf a.article n := by
          rw [chunkOfPart_some hcp]
        rw [hc0id, hid'] at hid
        have := chunkIdOf_inj hid
        omega
      · exact ih (n + 1)

theorem iter_chunk_ids_nodup (a : Article) :
    ((iter_paragraph_chunks a).map fun c => c.chunk_id).Nodup := by
  rw [iter_paragraph_chunks]
  by_cases ht : a.text = ""
  · rw [if_pos ht]
    simp
  · rw [if_neg ht]
    dsimp only
    exact filterMap_chunk_ids_nodup a _ 1

theorem mem_iter_article {a : Article} {c : Chunk} (hc : c ∈ iter_paragraph_chunks a) :
    c.article = a.article := by
  rw [iter_paragraph_chunks] at hc
  by_cases ht : a.text = ""
  · rw [if_pos ht] at hc
    simp at hc
  · rw [if_neg ht] at hc
    dsimp only at hc
    rcases List.mem_filterMap.mp hc with ⟨ip, _, hcp⟩
    rw [chunkOfPart_some hcp]

theorem mem_allChunks_article {as : List Article} {c : Chunk} (hc : c ∈ allChunks as) :
    c.article ∈ as.map fun a => a.article := by
  rw [allChunks] at hc
  rcases List.mem_flatMap.mp hc with ⟨a, ha, hca⟩
  exact List.mem_map.mpr ⟨a, ha, (mem_iter_article hca).symm⟩

theorem allChunks_pairs_nodup : ∀ as : List Article,
    ((as.map fun a => a.article).Nodup) →
    ((allChunks as).map fun c => (c.article, c.chunk_id)).Nodup := by
  intro as
  induction as with
  | nil =>
    intro _
    simp [allChunks]
  | cons a as ih =>
    intro h
    rw [List.map_cons, List.nodup_cons] at h
    rw [allChunks, List.flatMap_cons, List.map_append]
    refine List.Nodup.append ?_ (by rw [← allChunks] at *; exact ih h.2) ?_
    · apply List.Nodup.of_map fun p : String × String => p.2
      rw [List.map_map]
      exact iter_chunk_ids_nodup a
    · intro x hx1 hx2
      rcases List.mem_map.mp hx1 with ⟨c1, hc1, e1⟩
      rcases List.mem_map.mp hx2 with ⟨c2, hc2, e2⟩
      have h1 : c1.article = a.article := mem_iter_article hc1
      have h2 := mem_allChunks_article (by rw [allChunks]; exact hc2)
      have e3 : c1.article = c2.article := congrArg Prod.fst (e1.trans e2.symm)
      exact h.1 (by rw [← h1, e3]; exact h2)

/-! ## Claim theorems: chunk-id uniqueness (C10) -/

/-- C10 counterexample: an input in which the heading "Article 1" occurs
twice yields two chunks with the same `(article, chunk_id)` pair — the
pair (and the `chunk_id`) is not unique across the build. -/
theorem chunk_pairs_duplicate :
    ((allChunks (parse_articles "Article 1\nTitle\nbody\nArticle 1\nTitle\nbody")).map
      fun c => (c.article, c.chunk_id))
      = [("Article 1", "article_1_p1"), ("Article 1", "article_1_p1")] ∧
    ¬ ((allChunks (parse_articles "Article 1\nTitle\nbody\nArticle 1\nTitle\nbody")).map
      fun c => (c.article, c.chunk_id)).Nodup :=
  ⟨rfl, by decide⟩

/-- C10 amended: within one build whose parsed article labels are pairwise
distinct (as in the real GDPR corpus), no two chunks share the same
`(article, chunk_id)` pair. -/
theorem chunk_pairs_unique_of_distinct_labels (raw : String)
    (h : ((parse_articles raw).map fun a => a.article).Nodup) :
    ((allChunks (parse_articles raw)).map fun c => (c.article, c.chunk_id)).Nodup :=
  allChunks_pairs_nodup (parse_articles raw) h

/-- Witness for the amended C10 at a concrete two-article input. -/
theorem chunk_pairs_unique_witness :
    ((allChunks (parse_articles "Article 1\nT\nb\nArticle 2\nT\nb")).map
      fun c => (c.article, c.chunk_id)).Nodup :=
  chunk_pairs_unique_of_distinct_labels "Article 1\nT\nb\nArticle 2\nT\nb" (by decide)

end AIJudge
